import Mathlib

/-!
Shallow embedding of the compact pagination window builder of
fl-store-online: buildCompactPagination in the shared pagination utility,
duplicated verbatim in HomePage.tsx, ManageProductsPage.tsx and
AdminPage.tsx with a hard-coded limit of 7.

Machine numbers of the source are JavaScript numbers used only at integer
values, so they are embedded as Int.  A JavaScript Set is embedded as a
list with insertion-order deduplication (setAdd).  The truthiness test
of the source, previous && page - previous > 1, is embedded as
prev ≠ 0 ∧ p - prev > 1, because at index 0 previous is undefined
(falsy) and an integer is falsy exactly when it is 0.  Array.from with a
length object clamps a negative length to 0, embedded with Int.toNat.
The ascending numeric sort is embedded with List.insertionSort.
-/

namespace FLStore

/-- Embedding of the source union type PaginationItem: a page number or an
ellipsis gap marker. -/
inductive PaginationItem where
  | page (n : Int)
  | ellipsis
deriving DecidableEq, Repr

/-- JavaScript Set add: append the value if absent, keeping insertion
order. -/
def setAdd (s : List Int) (x : Int) : List Int :=
  if x ∈ s then s else s ++ [x]

/-- Building a JavaScript Set from a list of values, and chains of add
calls: fold setAdd over the values. -/
def setAddAll (s : List Int) (xs : List Int) : List Int :=
  xs.foldl setAdd s

/-- The pageSet of the source after the two conditional widening blocks:
seeded with [1, totalPages, currentPage, currentPage - 1, currentPage + 1],
then 2, 3, 4 are added when currentPage <= 3, then totalPages - 1,
totalPages - 2, totalPages - 3 are added when
currentPage >= totalPages - 2. -/
def candidateSet (currentPage totalPages : Int) : List Int :=
  let pageSet := setAddAll [] [1, totalPages, currentPage, currentPage - 1, currentPage + 1]
  let pageSet := if currentPage ≤ 3 then setAddAll pageSet [2, 3, 4] else pageSet
  if totalPages - 2 ≤ currentPage then
    setAddAll pageSet [totalPages - 1, totalPages - 2, totalPages - 3]
  else pageSet

/-- The sortedPages of the source: the candidate set filtered to the range
[1, totalPages] and sorted ascending. -/
def sortedCandidates (currentPage totalPages : Int) : List Int :=
  List.insertionSort (· ≤ ·)
    ((candidateSet currentPage totalPages).filter (fun p => decide (1 ≤ p ∧ p ≤ totalPages)))

/-- The forEach walk of the source from index 1 on: prev is the page
emitted just before; a gap marker is pushed before p when prev is truthy
(nonzero) and p - prev > 1. -/
def insertGapsFrom (prev : Int) : List Int → List PaginationItem
  | [] => []
  | p :: rest =>
      (if prev ≠ 0 ∧ p - prev > 1 then [PaginationItem.ellipsis, PaginationItem.page p]
       else [PaginationItem.page p]) ++ insertGapsFrom p rest

/-- The whole forEach walk building compactItems: at index 0 the previous
element is undefined (falsy), so the first page is emitted with no gap
marker before it. -/
def insertGaps : List Int → List PaginationItem
  | [] => []
  | p :: rest => PaginationItem.page p :: insertGapsFrom p rest

/-- buildCompactPagination of the shared pagination utility. -/
def buildCompactPagination (currentPage totalPages maxVisible : Int) : List PaginationItem :=
  if totalPages ≤ maxVisible then
    (List.range totalPages.toNat).map (fun (index : Nat) => PaginationItem.page ((index : Int) + 1))
  else
    insertGaps (sortedCandidates currentPage totalPages)

/-- The numeric entries of a pagination result, in result order. -/
def pageEntries (items : List PaginationItem) : List Int :=
  items.filterMap (fun item =>
    match item with
    | PaginationItem.page n => some n
    | PaginationItem.ellipsis => none)

end FLStore

namespace HomePage

/-- COMPACT_PAGINATION_LIMIT of HomePage.tsx. -/
def COMPACT_PAGINATION_LIMIT : Int := 7

/-- The local buildCompactPagination duplicated in HomePage.tsx, with the
hard-coded limit of 7 in place of the maxVisible parameter. -/
def buildCompactPagination (currentPage totalPages : Int) : List FLStore.PaginationItem :=
  if totalPages ≤ COMPACT_PAGINATION_LIMIT then
    (List.range totalPages.toNat).map (fun (index : Nat) => FLStore.PaginationItem.page ((index : Int) + 1))
  else
    let pageSet := FLStore.setAddAll []
      [1, totalPages, currentPage, currentPage - 1, currentPage + 1]
    let pageSet := if currentPage ≤ 3 then FLStore.setAddAll pageSet [2, 3, 4] else pageSet
    let pageSet := if totalPages - 2 ≤ currentPage then
        FLStore.setAddAll pageSet [totalPages - 1, totalPages - 2, totalPages - 3]
      else pageSet
    let sortedPages := List.insertionSort (· ≤ ·)
      (pageSet.filter (fun p => decide (1 ≤ p ∧ p ≤ totalPages)))
    FLStore.insertGaps sortedPages

end HomePage

namespace ManageProductsPage

/-- COMPACT_PAGINATION_LIMIT of ManageProductsPage.tsx. -/
def COMPACT_PAGINATION_LIMIT : Int := 7

/-- The local buildCompactPagination duplicated in ManageProductsPage.tsx,
with the hard-coded limit of 7 in place of the maxVisible parameter. -/
def buildCompactPagination (currentPage totalPages : Int) : List FLStore.PaginationItem :=
  if totalPages ≤ COMPACT_PAGINATION_LIMIT then
    (List.range totalPages.toNat).map (fun (index : Nat) => FLStore.PaginationItem.page ((index : Int) + 1))
  else
    let pageSet := FLStore.setAddAll []
      [1, totalPages, currentPage, currentPage - 1, currentPage + 1]
    let pageSet := if currentPage ≤ 3 then FLStore.setAddAll pageSet [2, 3, 4] else pageSet
    let pageSet := if totalPages - 2 ≤ currentPage then
        FLStore.setAddAll pageSet [totalPages - 1, totalPages - 2, totalPages - 3]
      else pageSet
    let sortedPages := List.insertionSort (· ≤ ·)
      (pageSet.filter (fun p => decide (1 ≤ p ∧ p ≤ totalPages)))
    FLStore.insertGaps sortedPages

end ManageProductsPage

namespace AdminPage

/-- COMPACT_PAGINATION_LIMIT of AdminPage.tsx. -/
def COMPACT_PAGINATION_LIMIT : Int := 7

/-- The local buildCompactPagination duplicated in AdminPage.tsx, with the
hard-coded limit of 7 in place of the maxVisible parameter. -/
def buildCompactPagination (currentPage totalPages : Int) : List FLStore.PaginationItem :=
  if totalPages ≤ COMPACT_PAGINATION_LIMIT then
    (List.range totalPages.toNat).map (fun (index : Nat) => FLStore.PaginationItem.page ((index : Int) + 1))
  else
    let pageSet := FLStore.setAddAll []
      [1, totalPages, currentPage, currentPage - 1, currentPage + 1]
    let pageSet := if currentPage ≤ 3 then FLStore.setAddAll pageSet [2, 3, 4] else pageSet
    let pageSet := if totalPages - 2 ≤ currentPage then
        FLStore.setAddAll pageSet [totalPages - 1, totalPages - 2, totalPages - 3]
      else pageSet
    let sortedPages := List.insertionSort (· ≤ ·)
      (pageSet.filter (fun p => decide (1 ≤ p ∧ p ≤ totalPages)))
    FLStore.insertGaps sortedPages

end AdminPage

namespace FLStore

theorem mem_setAdd {s : List Int} {x y : Int} : x ∈ setAdd s y ↔ x ∈ s ∨ x = y := by
  by_cases h : y ∈ s
  · simp only [setAdd, if_pos h]
    exact ⟨Or.inl, fun hx => hx.elim id (fun e => e ▸ h)⟩
  · simp [setAdd, if_neg h]

theorem nodup_setAdd {s : List Int} {y : Int} (h : s.Nodup) : (setAdd s y).Nodup := by
  by_cases hy : y ∈ s
  · simpa [setAdd, if_pos hy] using h
  · simp [setAdd, if_neg hy, List.nodup_append, h, hy]

theorem mem_setAddAll {x : Int} :
    ∀ (ys s : List Int), x ∈ setAddAll s ys ↔ x ∈ s ∨ x ∈ ys := by
  intro ys
  induction ys with
  | nil => intro s; simp [setAddAll]
  | cons y ys ih =>
      intro s
      have h1 : setAddAll s (y :: ys) = setAddAll (setAdd s y) ys := rfl
      rw [h1, ih, mem_setAdd]
      simp [List.mem_cons]
      tauto

theorem nodup_setAddAll :
    ∀ (ys s : List Int), s.Nodup → (setAddAll s ys).Nodup := by
  intro ys
  induction ys with
  | nil => intro s h; simpa [setAddAll] using h
  | cons y ys ih =>
      intro s h
      have h1 : setAddAll s (y :: ys) = setAddAll (setAdd s y) ys := rfl
      rw [h1]
      exact ih _ (nodup_setAdd h)

theorem mem_candidateSet {c tp x : Int} :
    x ∈ candidateSet c tp ↔
      ((x = 1 ∨ x = tp ∨ x = c ∨ x = c - 1 ∨ x = c + 1) ∨
       (c ≤ 3 ∧ (x = 2 ∨ x = 3 ∨ x = 4)) ∨
       (tp - 2 ≤ c ∧ (x = tp - 1 ∨ x = tp - 2 ∨ x = tp - 3))) := by
  unfold candidateSet
  by_cases h1 : c ≤ 3 <;> by_cases h2 : tp - 2 ≤ c <;>
    · simp [h1, h2, mem_setAddAll, List.mem_cons]
      try tauto

theorem nodup_candidateSet {c tp : Int} : (candidateSet c tp).Nodup := by
  unfold candidateSet
  by_cases h1 : c ≤ 3 <;> by_cases h2 : tp - 2 ≤ c <;>
    simp only [h1, h2, if_pos, if_neg, if_true, if_false] <;>
    first
    | exact nodup_setAddAll _ _ (nodup_setAddAll _ _ (nodup_setAddAll _ _ List.nodup_nil))
    | exact nodup_setAddAll _ _ (nodup_setAddAll _ _ List.nodup_nil)
    | exact nodup_setAddAll _ _ List.nodup_nil

theorem mem_sortedCandidates {c tp x : Int} :
    x ∈ sortedCandidates c tp ↔ x ∈ candidateSet c tp ∧ (1 ≤ x ∧ x ≤ tp) := by
  unfold sortedCandidates
  rw [List.mem_insertionSort]
  simp [List.mem_filter]

theorem nodup_sortedCandidates (c tp : Int) : (sortedCandidates c tp).Nodup := by
  unfold sortedCandidates
  exact ((List.perm_insertionSort _ _).nodup_iff).2
    (List.Nodup.filter _ nodup_candidateSet)

theorem sorted_le_sortedCandidates (c tp : Int) :
    (sortedCandidates c tp).Sorted (· ≤ ·) :=
  List.sorted_insertionSort _ _

theorem pairwise_lt_sortedCandidates (c tp : Int) :
    (sortedCandidates c tp).Pairwise (· < ·) :=
  List.Sorted.lt_of_le (sorted_le_sortedCandidates c tp) (nodup_sortedCandidates c tp)

theorem one_mem_sortedCandidates {c tp : Int} (h : 1 ≤ tp) : 1 ∈ sortedCandidates c tp := by
  rw [mem_sortedCandidates]
  exact ⟨mem_candidateSet.2 (Or.inl (Or.inl rfl)), le_refl 1, h⟩

theorem top_mem_sortedCandidates {c tp : Int} (h : 1 ≤ tp) : tp ∈ sortedCandidates c tp := by
  rw [mem_sortedCandidates]
  exact ⟨mem_candidateSet.2 (Or.inl (Or.inr (Or.inl rfl))), h, le_refl tp⟩

theorem sortedCandidates_pos {c tp x : Int} (hx : x ∈ sortedCandidates c tp) :
    1 ≤ x ∧ x ≤ tp :=
  (mem_sortedCandidates.1 hx).2

theorem insertGapsFrom_cons (prev p : Int) (rest : List Int) :
    insertGapsFrom prev (p :: rest) =
      (if prev ≠ 0 ∧ p - prev > 1 then [PaginationItem.ellipsis, PaginationItem.page p]
       else [PaginationItem.page p]) ++ insertGapsFrom p rest := rfl

theorem insertGapsFrom_ne_nil (prev p : Int) (rest : List Int) :
    insertGapsFrom prev (p :: rest) ≠ [] := by
  rw [insertGapsFrom_cons]
  split <;> simp

theorem pageEntries_append (a b : List PaginationItem) :
    pageEntries (a ++ b) = pageEntries a ++ pageEntries b := by
  simp [pageEntries, List.filterMap_append]

theorem pageEntries_insertGapsFrom : ∀ (l : List Int) (prev : Int),
    pageEntries (insertGapsFrom prev l) = l := by
  intro l
  induction l with
  | nil => intro prev; rfl
  | cons p rest ih =>
      intro prev
      rw [insertGapsFrom_cons, pageEntries_append, ih p]
      split <;> simp [pageEntries]

theorem pageEntries_insertGaps (l : List Int) : pageEntries (insertGaps l) = l := by
  cases l with
  | nil => rfl
  | cons p rest =>
      have h : pageEntries (PaginationItem.page p :: insertGapsFrom p rest) =
          p :: pageEntries (insertGapsFrom p rest) := by
        simp [pageEntries]
      rw [show insertGaps (p :: rest) = PaginationItem.page p :: insertGapsFrom p rest from rfl,
        h, pageEntries_insertGapsFrom]

theorem mem_pageEntries {x : Int} {items : List PaginationItem} :
    x ∈ pageEntries items ↔ PaginationItem.page x ∈ items := by
  simp only [pageEntries, List.mem_filterMap]
  constructor
  · rintro ⟨a, ha, hfa⟩
    cases a with
    | page n =>
        simp only [Option.some_inj] at hfa
        exact hfa ▸ ha
    | ellipsis => simp at hfa
  · intro h
    exact ⟨PaginationItem.page x, h, rfl⟩

theorem page_mem_insertGaps {x : Int} {l : List Int} :
    PaginationItem.page x ∈ insertGaps l ↔ x ∈ l := by
  rw [← mem_pageEntries, pageEntries_insertGaps]

theorem length_insertGapsFrom_le : ∀ (l : List Int) (prev : Int),
    (insertGapsFrom prev l).length ≤ 2 * l.length := by
  intro l
  induction l with
  | nil => intro prev; simp [insertGapsFrom]
  | cons p rest ih =>
      intro prev
      rw [insertGapsFrom_cons, List.length_append]
      have h := ih p
      split <;> simp only [List.length_cons, List.length_nil] <;> omega

theorem length_insertGaps_le (l : List Int) : (insertGaps l).length ≤ 2 * l.length := by
  cases l with
  | nil => simp [insertGaps]
  | cons p rest =>
      rw [show insertGaps (p :: rest) = PaginationItem.page p :: insertGapsFrom p rest from rfl]
      have h := length_insertGapsFrom_le rest p
      simp only [List.length_cons]
      omega

theorem head?_insertGaps (p : Int) (rest : List Int) :
    (insertGaps (p :: rest)).head? = some (PaginationItem.page p) := rfl

theorem getLast?_insertGapsFrom : ∀ (rest : List Int) (prev p : Int),
    (insertGapsFrom prev (p :: rest)).getLast? =
      ((p :: rest).getLast?).map PaginationItem.page := by
  intro rest
  induction rest with
  | nil =>
      intro prev p
      rw [insertGapsFrom_cons]
      split <;> simp [insertGapsFrom]
  | cons q rest2 ih =>
      intro prev p
      rw [insertGapsFrom_cons, List.getLast?_append, ih p q, List.getLast?_cons_cons]
      cases h : ((q :: rest2).getLast?) with
      | none => simp [List.getLast?_eq_none_iff] at h
      | some v => simp

theorem getLast?_insertGaps (l : List Int) (h : l ≠ []) :
    (insertGaps l).getLast? = (l.getLast?).map PaginationItem.page := by
  cases l with
  | nil => exact absurd rfl h
  | cons p rest =>
      cases rest with
      | nil => rfl
      | cons q rest2 =>
          rw [show insertGaps (p :: q :: rest2) =
                [PaginationItem.page p] ++ insertGapsFrom p (q :: rest2) from rfl,
            List.getLast?_append, getLast?_insertGapsFrom, List.getLast?_cons_cons]
          cases h2 : ((q :: rest2).getLast?) with
          | none => simp [List.getLast?_eq_none_iff] at h2
          | some v => simp

theorem head?_eq_of_sorted_mem {l : List Int} {m : Int} (hs : l.Pairwise (· ≤ ·))
    (hm : m ∈ l) (hlb : ∀ x ∈ l, m ≤ x) : l.head? = some m := by
  cases l with
  | nil => cases hm
  | cons a l =>
      have ham : a = m := by
        rcases List.mem_cons.1 hm with h | h
        · exact h.symm
        · have h1 : a ≤ m := (List.pairwise_cons.1 hs).1 m h
          have h2 : m ≤ a := hlb a (List.mem_cons_self a l)
          omega
      simp [ham]

theorem getLast?_eq_of_sorted_mem {m : Int} :
    ∀ {l : List Int}, l.Pairwise (· ≤ ·) → m ∈ l → (∀ x ∈ l, x ≤ m) →
      l.getLast? = some m := by
  intro l
  induction l with
  | nil => intro _ hm; cases hm
  | cons a l ih =>
      intro hs hm hub
      cases l with
      | nil =>
          have : m = a := by simpa using hm
          simp [this]
      | cons b l2 =>
          rw [List.getLast?_cons_cons]
          have hm2 : m ∈ b :: l2 := by
            rcases List.mem_cons.1 hm with h | h
            · have hab : a ≤ b := (List.pairwise_cons.1 hs).1 b (by simp)
              have hbm : b ≤ m := hub b (by simp)
              have hbeq : b = m := by omega
              exact hbeq ▸ List.mem_cons_self b l2
            · exact h
          exact ih (List.Pairwise.of_cons hs) hm2
            (fun x hx => hub x (List.mem_cons_of_mem a hx))

theorem insertGaps_cons_cons_of_gap {p q : Int} (rest : List Int)
    (hp : p ≠ 0) (hgap : q - p > 1) :
    insertGaps (p :: q :: rest) =
      PaginationItem.page p :: PaginationItem.ellipsis :: insertGaps (q :: rest) := by
  rw [show insertGaps (p :: q :: rest) =
        PaginationItem.page p :: insertGapsFrom p (q :: rest) from rfl,
    insertGapsFrom_cons, if_pos ⟨hp, hgap⟩]
  rfl

theorem insertGaps_cons_cons_of_adj {p q : Int} (rest : List Int)
    (hadj : ¬ (p ≠ 0 ∧ q - p > 1)) :
    insertGaps (p :: q :: rest) =
      PaginationItem.page p :: insertGaps (q :: rest) := by
  rw [show insertGaps (p :: q :: rest) =
        PaginationItem.page p :: insertGapsFrom p (q :: rest) from rfl,
    insertGapsFrom_cons, if_neg hadj]
  rfl

theorem insertGaps_adjacency :
    ∀ (l : List Int), l.Pairwise (· < ·) → (∀ x ∈ l, 1 ≤ x) → ∀ i : Nat,
      (∀ a b : Int, (insertGaps l).get? i = some (PaginationItem.page a) →
          (insertGaps l).get? (i + 1) = some (PaginationItem.page b) → b = a + 1) ∧
      ((insertGaps l).get? i = some PaginationItem.ellipsis →
          ∃ j a b, i = j + 1 ∧ (insertGaps l).get? j = some (PaginationItem.page a) ∧
            (insertGaps l).get? (i + 1) = some (PaginationItem.page b) ∧ a + 1 < b) := by
  intro l
  induction l with
  | nil =>
      intro _ _ i
      constructor
      · intro a b h1
        simp [insertGaps] at h1
      · intro h
        simp [insertGaps] at h
  | cons p rest ih =>
      cases rest with
      | nil =>
          intro _ _ i
          constructor
          · intro a b h1 h2
            rcases i with _ | i
            · simp [insertGaps, insertGapsFrom] at h2
            · simp [insertGaps, insertGapsFrom] at h1
          · intro h
            rcases i with _ | i <;> simp [insertGaps, insertGapsFrom] at h
      | cons q rest2 =>
          intro hpw hpos i
          have hq : p < q := (List.pairwise_cons.1 hpw).1 q (by simp)
          have hp1 : 1 ≤ p := hpos p (by simp)
          have ihT := ih (List.Pairwise.of_cons hpw)
            (fun x hx => hpos x (List.mem_cons_of_mem p hx))
          have hT0 : (insertGaps (q :: rest2)).get? 0 = some (PaginationItem.page q) := rfl
          by_cases hgap : q - p > 1
          · rw [insertGaps_cons_cons_of_gap rest2 (by omega) hgap]
            constructor
            · intro a b h1 h2
              rcases i with _ | (_ | i)
              · simp at h2
              · simp at h1
              · simp only [List.get?_cons_succ] at h1 h2
                exact (ihT i).1 a b h1 h2
            · intro h
              rcases i with _ | (_ | i)
              · simp at h
              · refine ⟨0, p, q, rfl, rfl, ?_, by omega⟩
                simpa using hT0
              · simp only [List.get?_cons_succ] at h
                obtain ⟨j, a, b, hij, hja, hib, hab⟩ := (ihT i).2 h
                refine ⟨j + 2, a, b, by omega, ?_, ?_, hab⟩
                · simpa using hja
                · simpa using hib
          · have hq1 : q = p + 1 := by omega
            rw [insertGaps_cons_cons_of_adj rest2 (by omega)]
            constructor
            · intro a b h1 h2
              rcases i with _ | i
              · simp only [List.get?_cons_zero, Option.some_inj] at h1
                simp only [List.get?_cons_succ] at h2
                rw [hT0] at h2
                cases h1
                cases h2
                omega
              · simp only [List.get?_cons_succ] at h1 h2
                exact (ihT i).1 a b h1 h2
            · intro h
              rcases i with _ | i
              · simp at h
              · simp only [List.get?_cons_succ] at h
                obtain ⟨j, a, b, hij, hja, hib, hab⟩ := (ihT i).2 h
                refine ⟨j + 1, a, b, by omega, ?_, ?_, hab⟩
                · simpa using hja
                · simpa using hib

theorem get?_rangePages (n i : Nat) :
    ((List.range n).map (fun (index : Nat) => PaginationItem.page ((index : Int) + 1))).get? i =
      if i < n then some (PaginationItem.page ((i : Int) + 1)) else none := by
  by_cases h : i < n
  · rw [if_pos h, List.get?_map, List.get?_range h]
    rfl
  · rw [if_neg h]
    apply List.get?_eq_none.2
    simp only [List.length_map, List.length_range]
    omega

theorem pageEntries_rangePages (n : Nat) :
    pageEntries ((List.range n).map (fun (index : Nat) => PaginationItem.page ((index : Int) + 1))) =
      (List.range n).map (fun (index : Nat) => (index : Int) + 1) := by
  induction n with
  | zero => rfl
  | succ m ih =>
      rw [List.range_succ, List.map_append, List.map_append, pageEntries_append, ih]
      rfl

theorem pairwise_rangePages (n : Nat) :
    ((List.range n).map (fun (index : Nat) => (index : Int) + 1)).Pairwise (· < ·) := by
  refine List.Pairwise.map _ ?_ (List.pairwise_lt_range n)
  intro a b hab
  omega

theorem sortedCandidates_length_le {c tp : Int} (h1 : 1 ≤ c) (h2 : c ≤ tp) :
    (sortedCandidates c tp).length ≤ 5 := by
  have hnd := nodup_sortedCandidates c tp
  have hex : ∃ L : List Int, L.length = 5 ∧ sortedCandidates c tp ⊆ L := by
    by_cases hA : c ≤ 3 <;> by_cases hB : tp - 2 ≤ c
    · refine ⟨[1, 2, 3, 4, 5], rfl, ?_⟩
      intro x hx
      obtain ⟨hcand, hb1, hb2⟩ := mem_sortedCandidates.1 hx
      simp only [List.mem_cons, List.not_mem_nil, or_false]
      omega
    · refine ⟨[1, 2, 3, 4, tp], rfl, ?_⟩
      intro x hx
      obtain ⟨hcand, hb1, hb2⟩ := mem_sortedCandidates.1 hx
      have hc := mem_candidateSet.1 hcand
      simp only [List.mem_cons, List.not_mem_nil, or_false]
      rcases hc with (h | h | h | h | h) | ⟨h3, h | h | h⟩ | ⟨h3, h | h | h⟩ <;> omega
    · refine ⟨[1, tp - 3, tp - 2, tp - 1, tp], rfl, ?_⟩
      intro x hx
      obtain ⟨hcand, hb1, hb2⟩ := mem_sortedCandidates.1 hx
      have hc := mem_candidateSet.1 hcand
      simp only [List.mem_cons, List.not_mem_nil, or_false]
      rcases hc with (h | h | h | h | h) | ⟨h3, h | h | h⟩ | ⟨h3, h | h | h⟩ <;> omega
    · refine ⟨[1, c - 1, c, c + 1, tp], rfl, ?_⟩
      intro x hx
      obtain ⟨hcand, hb1, hb2⟩ := mem_sortedCandidates.1 hx
      have hc := mem_candidateSet.1 hcand
      simp only [List.mem_cons, List.not_mem_nil, or_false]
      rcases hc with (h | h | h | h | h) | ⟨h3, h | h | h⟩ | ⟨h3, h | h | h⟩ <;> omega
  obtain ⟨L, hL, hsub⟩ := hex
  have hle := (List.subperm_of_subset hnd hsub).length_le
  omega

/-- Claim C1, counterexample: the claimed value of
buildCompactPagination 1 20 7 is [1, 2, 3, 4, gap, 19, 20], but the code
does not produce that sequence. -/
theorem C1_claim_counterexample :
    buildCompactPagination 1 20 7 ≠
      [PaginationItem.page 1, PaginationItem.page 2, PaginationItem.page 3,
       PaginationItem.page 4, PaginationItem.ellipsis, PaginationItem.page 19,
       PaginationItem.page 20] := by
  decide

/-- Claim C1, amended: buildCompactPagination 1 20 7 returns exactly the
sequence [1, 2, 3, 4, gap, 20] (page 19 is not included, since the
end-widening rule does not fire when currentPage = 1). -/
theorem C1_amended :
    buildCompactPagination 1 20 7 =
      [PaginationItem.page 1, PaginationItem.page 2, PaginationItem.page 3,
       PaginationItem.page 4, PaginationItem.ellipsis, PaginationItem.page 20] := by
  decide

/-- Claim C2: for every currentPage, and every totalPages >= 1 and
maxVisible >= 1 with totalPages <= maxVisible, buildCompactPagination
returns exactly the sequence [1, 2, ..., totalPages] (all pages in order,
no gap markers). -/
theorem C2_exhaustive_case (currentPage totalPages maxVisible : Int)
    (h1 : 1 ≤ totalPages) (h2 : 1 ≤ maxVisible) (h3 : totalPages ≤ maxVisible) :
    buildCompactPagination currentPage totalPages maxVisible =
      (List.range' 1 totalPages.toNat).map (fun (n : Nat) => PaginationItem.page (n : Int)) := by
  unfold buildCompactPagination
  rw [if_pos h3, List.range'_eq_map_range, List.map_map]
  apply List.map_congr_left
  intro a ha
  simp only [Function.comp]
  congr 1
  push_cast
  omega

/-- Witness for C2 at currentPage = 5, totalPages = 3, maxVisible = 7. -/
theorem C2_exhaustive_case_witness :
    (1 : Int) ≤ 3 ∧ (1 : Int) ≤ 7 ∧ (3 : Int) ≤ 7 ∧
      buildCompactPagination 5 3 7 =
        (List.range' 1 (3 : Int).toNat).map (fun (n : Nat) => PaginationItem.page (n : Int)) :=
  ⟨by decide, by decide, by decide,
    C2_exhaustive_case 5 3 7 (by decide) (by decide) (by decide)⟩

/-- Claim C3: for totalPages >= 1, maxVisible >= 1,
currentPage in [1, totalPages] and totalPages > maxVisible, the first
element of the result is page 1 and the last element is page
totalPages. -/
theorem C3_endpoints (currentPage totalPages maxVisible : Int)
    (h1 : 1 ≤ totalPages) (h2 : 1 ≤ maxVisible) (h3 : maxVisible < totalPages)
    (h4 : 1 ≤ currentPage) (h5 : currentPage ≤ totalPages) :
    (buildCompactPagination currentPage totalPages maxVisible).head? =
        some (PaginationItem.page 1) ∧
      (buildCompactPagination currentPage totalPages maxVisible).getLast? =
        some (PaginationItem.page totalPages) := by
  unfold buildCompactPagination
  rw [if_neg (by omega)]
  have hs : (sortedCandidates currentPage totalPages).Pairwise (· ≤ ·) :=
    sorted_le_sortedCandidates _ _
  have h1m : 1 ∈ sortedCandidates currentPage totalPages := one_mem_sortedCandidates (by omega)
  have htm : totalPages ∈ sortedCandidates currentPage totalPages :=
    top_mem_sortedCandidates (by omega)
  have hhead : (sortedCandidates currentPage totalPages).head? = some 1 :=
    head?_eq_of_sorted_mem hs h1m (fun x hx => (sortedCandidates_pos hx).1)
  have hlast : (sortedCandidates currentPage totalPages).getLast? = some totalPages :=
    getLast?_eq_of_sorted_mem hs htm (fun x hx => (sortedCandidates_pos hx).2)
  constructor
  · cases hcase : sortedCandidates currentPage totalPages with
    | nil => rw [hcase] at hhead; cases hhead
    | cons a rest =>
        rw [hcase] at hhead
        simp only [List.head?_cons, Option.some_inj] at hhead
        rw [head?_insertGaps, hhead]
  · rw [getLast?_insertGaps _ (by intro he; rw [he] at h1m; cases h1m), hlast]
    rfl

/-- Witness for C3 at currentPage = 10, totalPages = 20, maxVisible = 7. -/
theorem C3_endpoints_witness :
    (1 : Int) ≤ 20 ∧ (1 : Int) ≤ 7 ∧ (7 : Int) < 20 ∧ (1 : Int) ≤ 10 ∧ (10 : Int) ≤ 20 ∧
      ((buildCompactPagination 10 20 7).head? = some (PaginationItem.page 1) ∧
        (buildCompactPagination 10 20 7).getLast? = some (PaginationItem.page 20)) :=
  ⟨by decide, by decide, by decide, by decide, by decide,
    C3_endpoints 10 20 7 (by decide) (by decide) (by decide) (by decide) (by decide)⟩

/-- Claim C4: for valid inputs, a gap marker appears between two adjacent
numeric entries of the result exactly when the difference of those page
numbers is strictly greater than 1.  Concretely: two directly adjacent
numeric entries always differ by exactly 1, and every ellipsis in the
result sits between a numeric entry a and a numeric entry b with
a + 1 < b. -/
theorem C4_gap_iff (currentPage totalPages maxVisible : Int)
    (h1 : 1 ≤ totalPages) (h2 : 1 ≤ maxVisible)
    (h4 : 1 ≤ currentPage) (h5 : currentPage ≤ totalPages) :
    ∀ i : Nat,
      (∀ a b : Int,
        (buildCompactPagination currentPage totalPages maxVisible).get? i =
            some (PaginationItem.page a) →
          (buildCompactPagination currentPage totalPages maxVisible).get? (i + 1) =
            some (PaginationItem.page b) → b = a + 1) ∧
      ((buildCompactPagination currentPage totalPages maxVisible).get? i =
            some PaginationItem.ellipsis →
        ∃ j a b, i = j + 1 ∧
          (buildCompactPagination currentPage totalPages maxVisible).get? j =
            some (PaginationItem.page a) ∧
          (buildCompactPagination currentPage totalPages maxVisible).get? (i + 1) =
            some (PaginationItem.page b) ∧ a + 1 < b) := by
  unfold buildCompactPagination
  by_cases h3 : totalPages ≤ maxVisible
  · rw [if_pos h3]
    intro i
    constructor
    · intro a b hi hi1
      rw [get?_rangePages] at hi hi1
      by_cases hin : i < totalPages.toNat
      · rw [if_pos hin] at hi
        by_cases hin1 : i + 1 < totalPages.toNat
        · rw [if_pos hin1] at hi1
          simp only [Option.some_inj, PaginationItem.page.injEq] at hi hi1
          push_cast at hi hi1
          omega
        · rw [if_neg hin1] at hi1
          cases hi1
      · rw [if_neg hin] at hi
        cases hi
    · intro hi
      rw [get?_rangePages] at hi
      by_cases hin : i < totalPages.toNat
      · rw [if_pos hin] at hi
        cases hi
      · rw [if_neg hin] at hi
        cases hi
  · rw [if_neg h3]
    exact insertGaps_adjacency (sortedCandidates currentPage totalPages)
      (pairwise_lt_sortedCandidates _ _)
      (fun x hx => (sortedCandidates_pos hx).1)

/-- Witness for C4 at currentPage = 10, totalPages = 20, maxVisible = 7,
index 1: the ellipsis at index 1 sits between pages whose difference is
greater than 1. -/
theorem C4_gap_iff_witness :
    (buildCompactPagination 10 20 7).get? 1 = some PaginationItem.ellipsis ∧
      (∃ j a b, (1 : Nat) = j + 1 ∧
        (buildCompactPagination 10 20 7).get? j = some (PaginationItem.page a) ∧
        (buildCompactPagination 10 20 7).get? 2 = some (PaginationItem.page b) ∧
        a + 1 < b) :=
  ⟨by decide,
    (C4_gap_iff 10 20 7 (by decide) (by decide) (by decide) (by decide) 1).2 (by decide)⟩

/-- Claim C5: for valid inputs, the numeric entries of the result, read in
result order, are strictly increasing, and consequently no page number
occurs twice. -/
theorem C5_strictly_increasing (currentPage totalPages maxVisible : Int)
    (h1 : 1 ≤ totalPages) (h2 : 1 ≤ maxVisible)
    (h4 : 1 ≤ currentPage) (h5 : currentPage ≤ totalPages) :
    (pageEntries (buildCompactPagination currentPage totalPages maxVisible)).Pairwise (· < ·) ∧
      (pageEntries (buildCompactPagination currentPage totalPages maxVisible)).Nodup := by
  have hmain :
      (pageEntries (buildCompactPagination currentPage totalPages maxVisible)).Pairwise
        (· < ·) := by
    unfold buildCompactPagination
    by_cases h3 : totalPages ≤ maxVisible
    · rw [if_pos h3, pageEntries_rangePages]
      exact pairwise_rangePages _
    · rw [if_neg h3, pageEntries_insertGaps]
      exact pairwise_lt_sortedCandidates _ _
  exact ⟨hmain, hmain.imp (fun h => ne_of_lt h)⟩

/-- Witness for C5 at currentPage = 10, totalPages = 20, maxVisible = 7. -/
theorem C5_strictly_increasing_witness :
    (1 : Int) ≤ 20 ∧ (1 : Int) ≤ 7 ∧ (1 : Int) ≤ 10 ∧ (10 : Int) ≤ 20 ∧
      ((pageEntries (buildCompactPagination 10 20 7)).Pairwise (· < ·) ∧
        (pageEntries (buildCompactPagination 10 20 7)).Nodup) :=
  ⟨by decide, by decide, by decide, by decide,
    C5_strictly_increasing 10 20 7 (by decide) (by decide) (by decide) (by decide)⟩

/-- Claim C6, counterexample: with invalid totalPages = 0 the call is not
rejected and produces the (degenerate, empty) result sequence, and with
invalid maxVisible = 0 the call is not rejected either and produces a
full result sequence. -/
theorem C6_claim_counterexample :
    buildCompactPagination 1 0 7 = ([] : List PaginationItem) ∧
      buildCompactPagination 2 3 0 =
        [PaginationItem.page 1, PaginationItem.page 2, PaginationItem.page 3] :=
  ⟨by decide, by decide⟩

/-- Claim C6, amended: buildCompactPagination performs no input
validation and never throws: for totalPages < 1 (with
totalPages <= maxVisible, so the exhaustive branch applies) it silently
returns the empty sequence, and for maxVisible < 1 with totalPages >= 1
it silently computes a compacted result (which contains page 1). -/
theorem C6_no_validation (currentPage totalPages maxVisible : Int) :
    (totalPages < 1 → totalPages ≤ maxVisible →
      buildCompactPagination currentPage totalPages maxVisible = []) ∧
    (maxVisible < 1 → 1 ≤ totalPages →
      PaginationItem.page 1 ∈ buildCompactPagination currentPage totalPages maxVisible ∧
        buildCompactPagination currentPage totalPages maxVisible ≠ []) := by
  constructor
  · intro h1 h2
    unfold buildCompactPagination
    rw [if_pos h2]
    have h0 : totalPages.toNat = 0 := by omega
    rw [h0]
    rfl
  · intro h1 h2
    have hmem : PaginationItem.page 1 ∈ buildCompactPagination currentPage totalPages maxVisible := by
      unfold buildCompactPagination
      rw [if_neg (by omega)]
      exact page_mem_insertGaps.2 (one_mem_sortedCandidates h2)
    exact ⟨hmem, List.ne_nil_of_mem hmem⟩

/-- Witness for C6 at (1, 0, 7) for the totalPages part and (2, 3, 0) for
the maxVisible part. -/
theorem C6_no_validation_witness :
    ((0 : Int) < 1 ∧ (0 : Int) ≤ 7 ∧ buildCompactPagination 1 0 7 = []) ∧
      ((0 : Int) < 1 ∧ (1 : Int) ≤ 3 ∧
        (PaginationItem.page 1 ∈ buildCompactPagination 2 3 0 ∧
          buildCompactPagination 2 3 0 ≠ [])) :=
  ⟨⟨by decide, by decide, (C6_no_validation 1 0 7).1 (by decide) (by decide)⟩,
   ⟨by decide, by decide, (C6_no_validation 2 3 0).2 (by decide) (by decide)⟩⟩

/-- Claim C7: for every totalPages >= 1, every maxVisible and every
currentPage, the result is non-empty; in particular it contains
page 1. -/
theorem C7_nonempty (currentPage totalPages maxVisible : Int) (h1 : 1 ≤ totalPages) :
    PaginationItem.page 1 ∈ buildCompactPagination currentPage totalPages maxVisible ∧
      buildCompactPagination currentPage totalPages maxVisible ≠ [] := by
  have hmem : PaginationItem.page 1 ∈ buildCompactPagination currentPage totalPages maxVisible := by
    unfold buildCompactPagination
    by_cases h3 : totalPages ≤ maxVisible
    · rw [if_pos h3, List.mem_map]
      refine ⟨0, ?_, by norm_num⟩
      rw [List.mem_range]
      omega
    · rw [if_neg h3]
      exact page_mem_insertGaps.2 (one_mem_sortedCandidates h1)
  exact ⟨hmem, List.ne_nil_of_mem hmem⟩

/-- Witness for C7 at currentPage = 0 (out of range), totalPages = 5,
maxVisible = -3 (invalid): the result still contains page 1. -/
theorem C7_nonempty_witness :
    (1 : Int) ≤ 5 ∧
      (PaginationItem.page 1 ∈ buildCompactPagination 0 5 (-3) ∧
        buildCompactPagination 0 5 (-3) ≠ []) :=
  ⟨by decide, C7_nonempty 0 5 (-3) (by decide)⟩

/-- Claim C8, counterexample: at currentPage = 1, totalPages = 2,
maxVisible = 1 the compaction branch applies (2 > 1 >= 1, 1 in [1, 2])
and the result is [1, 2], which contains every page of [1, 2] — so the
clause that the result never contains all pages when compacting is
false. -/
theorem C8_claim_counterexample :
    (1 : Int) ≤ 1 ∧ (1 : Int) < 2 ∧ (1 : Int) ≤ 1 ∧ (1 : Int) ≤ 2 ∧
      buildCompactPagination 1 2 1 = [PaginationItem.page 1, PaginationItem.page 2] ∧
      PaginationItem.page 1 ∈ buildCompactPagination 1 2 1 ∧
      PaginationItem.page 2 ∈ buildCompactPagination 1 2 1 := by
  refine ⟨by decide, by decide, by decide, by decide, by decide, by decide, by decide⟩

/-- Claim C8, amended: for every totalPages > maxVisible >= 1 and
currentPage in [1, totalPages], the total result length (numeric entries
plus gap markers) is at most 10; and the result omits at least one page
whenever totalPages >= 6 (for totalPages <= 5 the compacting result may
still contain every page). -/
theorem C8_bounded (currentPage totalPages maxVisible : Int)
    (h2 : 1 ≤ maxVisible) (h3 : maxVisible < totalPages)
    (h4 : 1 ≤ currentPage) (h5 : currentPage ≤ totalPages) :
    (buildCompactPagination currentPage totalPages maxVisible).length ≤ 10 ∧
      (6 ≤ totalPages → ∃ p : Int, 1 ≤ p ∧ p ≤ totalPages ∧
        PaginationItem.page p ∉ buildCompactPagination currentPage totalPages maxVisible) := by
  have h3n : ¬ totalPages ≤ maxVisible := by omega
  constructor
  · unfold buildCompactPagination
    rw [if_neg h3n]
    have ha := length_insertGaps_le (sortedCandidates currentPage totalPages)
    have hb := sortedCandidates_length_le h4 h5
    omega
  · intro htp6
    by_contra hno
    push_neg at hno
    have hsub : ([1, 2, 3, 4, 5, 6] : List Int) ⊆ sortedCandidates currentPage totalPages := by
      intro x hx
      have hx16 : 1 ≤ x ∧ x ≤ 6 := by
        simp only [List.mem_cons, List.not_mem_nil, or_false] at hx
        omega
      have hmem := hno x hx16.1 (by omega)
      unfold buildCompactPagination at hmem
      rw [if_neg h3n] at hmem
      exact page_mem_insertGaps.1 hmem
    have hnd6 : ([1, 2, 3, 4, 5, 6] : List Int).Nodup := by decide
    have hle := (List.subperm_of_subset hnd6 hsub).length_le
    have hb := sortedCandidates_length_le h4 h5
    simp only [List.length_cons, List.length_nil] at hle
    omega

/-- Witness for C8 at currentPage = 10, totalPages = 20, maxVisible = 7. -/
theorem C8_bounded_witness :
    (1 : Int) ≤ 7 ∧ (7 : Int) < 20 ∧ (1 : Int) ≤ 10 ∧ (10 : Int) ≤ 20 ∧
      ((buildCompactPagination 10 20 7).length ≤ 10 ∧
        ((6 : Int) ≤ 20 → ∃ p : Int, 1 ≤ p ∧ p ≤ 20 ∧
          PaginationItem.page p ∉ buildCompactPagination 10 20 7)) :=
  ⟨by decide, by decide, by decide, by decide,
    C8_bounded 10 20 7 (by decide) (by decide) (by decide) (by decide)⟩

/-- Claim C9: for every currentPage and totalPages, each of the local
pagination builders duplicated in HomePage.tsx, ManageProductsPage.tsx
and AdminPage.tsx (each with its hard-coded limit of 7) returns exactly
the same sequence as the consolidated buildCompactPagination with
maxVisible = 7. -/
theorem C9_duplicates_agree (currentPage totalPages : Int) :
    HomePage.buildCompactPagination currentPage totalPages =
        buildCompactPagination currentPage totalPages 7 ∧
      ManageProductsPage.buildCompactPagination currentPage totalPages =
        buildCompactPagination currentPage totalPages 7 ∧
      AdminPage.buildCompactPagination currentPage totalPages =
        buildCompactPagination currentPage totalPages 7 :=
  ⟨rfl, rfl, rfl⟩

/-- Claim C10: for every totalPages >= 1, every maxVisible and every
integer currentPage (including out-of-range ones), every numeric entry of
the result lies within [1, totalPages]. -/
theorem C10_entries_in_range (currentPage totalPages maxVisible : Int)
    (h1 : 1 ≤ totalPages) :
    ∀ p : Int, PaginationItem.page p ∈ buildCompactPagination currentPage totalPages maxVisible →
      1 ≤ p ∧ p ≤ totalPages := by
  intro p hp
  unfold buildCompactPagination at hp
  by_cases h3 : totalPages ≤ maxVisible
  · rw [if_pos h3, List.mem_map] at hp
    obtain ⟨i, hi, hpi⟩ := hp
    rw [List.mem_range] at hi
    simp only [PaginationItem.page.injEq] at hpi
    omega
  · rw [if_neg h3] at hp
    exact sortedCandidates_pos (page_mem_insertGaps.1 hp)

/-- Witness for C10 at the out-of-range currentPage = 100, totalPages = 5,
maxVisible = 2, at the numeric entry 5 of the result. -/
theorem C10_entries_in_range_witness :
    (1 : Int) ≤ 5 ∧ ((1 : Int) ≤ 5 ∧ (5 : Int) ≤ 5) :=
  ⟨by decide, C10_entries_in_range 100 5 2 (by decide) 5 (by decide)⟩

end FLStore
